import Mathlib

set_option maxHeartbeats 1000000

/- Shallow embedding of the Avellaneda market maker in helper.py.

   The quote engine (calculate_dynamic_gamma, calculate_reservation_price,
   calculate_optimal_spread, calculate_asymmetric_quotes, calculate_order_sizes)
   is embedded over the real numbers, float arithmetic read as exact real
   arithmetic.  The order reconciler (handle_order_side, manage_orders) is
   embedded as a function producing the list of gateway calls it issues, in
   order, with prices as exact rationals; the external gateway (cancel results,
   the re-fetched mid, order-creation results) is an explicit oracle argument,
   since the Python code reads those from the network. -/

inductive Side : Type
  | yes : Side
  | no : Side
  deriving DecidableEq, Repr

inductive Act : Type
  | buy : Act
  | sell : Act
  deriving DecidableEq, Repr

/-- One resting order as the code reads it from the venue: the fields of the
order dict that helper.py uses (order_id, side, action, yes_price / no_price in
cents, remaining_count). -/
structure Order where
  order_id : ℕ
  side : Side
  action : Act
  yes_price : ℤ
  no_price : ℤ
  remaining_count : ℤ
  deriving DecidableEq, Repr

/-- The external world seen by one handle_order_side invocation: the outcome of
each cancel_order call (by order id, True when the call does not raise), the
outcome of a create_order call, and the mid price that get_mid_price returns at
the post-cancellation re-fetch. -/
structure Gateway where
  cancelOk : ℕ → Bool
  createOk : Bool
  refetchMid : ℚ

/-- One outward-visible step of the reconciler, in program order: a
cancel_order attempt (with its outcome), a get_mid_price call, a create_order
attempt (action, price in cents, size, outcome), or the logged skip. -/
inductive Event : Type
  | cancelAttempt : ℕ → Bool → Event
  | fetchMid : ℚ → Event
  | placeAttempt : Act → ℤ → ℤ → Bool → Event
  | logSkip : Act → Event
  deriving DecidableEq, Repr

/-- Python int() applied to a number: truncation toward zero. -/
def pyInt {α : Type} [LinearOrderedRing α] [FloorRing α] (x : α) : ℤ :=
  if 0 ≤ x then ⌊x⌋ else ⌈x⌉

/-- Price of a resting order in dollars, as read in handle_order_side:
yes_price/100 when trading the yes side, no_price/100 otherwise. -/
def orderPrice (ts : Side) (o : Order) : ℚ :=
  match ts with
  | Side.yes => (o.yes_price : ℚ) / 100
  | Side.no => (o.no_price : ℚ) / 100

/-- The keep test of handle_order_side on one order: price within 0.01 of the
desired price (strict) and remaining_count equal to the desired size. -/
def matchesDesired (ts : Side) (desired_price : ℚ) (desired_size : ℤ) (o : Order) : Bool :=
  decide (|orderPrice ts o - desired_price| < 1/100) && decide (o.remaining_count = desired_size)

/-- Cancel event for one order under a given gateway. -/
def cancelEv (gw : Gateway) (o : Order) : Event :=
  Event.cancelAttempt o.order_id (gw.cancelOk o.order_id)

/-- The for-loop of handle_order_side: walks the orders, designates the first
matching order as keep (when none is kept yet), and issues a cancel attempt
for every other order.  Returns the keep decision and the events emitted. -/
def scanOrders (ts : Side) (gw : Gateway) (desired_price : ℚ) (desired_size : ℤ) :
    List Order → Option Order → Option Order × List Event
  | [], keep => (keep, [])
  | o :: rest, keep =>
    if keep.isNone && matchesDesired ts desired_price desired_size o then
      scanOrders ts gw desired_price desired_size rest (some o)
    else
      let r := scanOrders ts gw desired_price desired_size rest keep
      (r.1, cancelEv gw o :: r.2)

/-- AvellanedaMarketMaker.handle_order_side: scan and cancel, then re-fetch the
mid unconditionally, then (when nothing was kept) place a new order exactly
when the desired price beats the fresh mid on the proper side, otherwise log a
skip.  Returns the keep decision and the ordered list of gateway events. -/
def handle_order_side (ts : Side) (gw : Gateway) (action : Act) (orders : List Order)
    (desired_price : ℚ) (desired_size : ℤ) : Option Order × List Event :=
  let s := scanOrders ts gw desired_price desired_size orders none
  let current_price := gw.refetchMid
  match s.1 with
  | some o => (some o, s.2 ++ [Event.fetchMid current_price])
  | none =>
    if (action = Act.buy ∧ desired_price < current_price) ∨
        (action = Act.sell ∧ desired_price > current_price) then
      (none, s.2 ++ [Event.fetchMid current_price,
        Event.placeAttempt action (pyInt (desired_price * 100)) desired_size gw.createOk])
    else
      (none, s.2 ++ [Event.fetchMid current_price, Event.logSkip action])

/-- AvellanedaMarketMaker.manage_orders: split the resting orders of the traded
side into buys and sells, reconcile the buy side, then the sell side; the
event trace of the whole cycle is the concatenation. -/
def manage_orders (ts : Side) (gwBuy gwSell : Gateway) (current_orders : List Order)
    (bid_price ask_price : ℚ) (buy_size sell_size : ℤ) : List Event :=
  let buy_orders := current_orders.filter
    (fun o => decide (o.side = ts) && decide (o.action = Act.buy))
  let sell_orders := current_orders.filter
    (fun o => decide (o.side = ts) && decide (o.action = Act.sell))
  (handle_order_side ts gwBuy Act.buy buy_orders bid_price buy_size).2 ++
  (handle_order_side ts gwSell Act.sell sell_orders ask_price sell_size).2

def isCancel : Event → Bool
  | Event.cancelAttempt _ _ => true
  | _ => false

def isFetch : Event → Bool
  | Event.fetchMid _ => true
  | _ => false

def isPlace : Event → Bool
  | Event.placeAttempt _ _ _ _ => true
  | _ => false

def cancelCount (tr : List Event) : ℕ := (tr.filter isCancel).length

def fetchCount (tr : List Event) : ℕ := (tr.filter isFetch).length

def placeCount (tr : List Event) : ℕ := (tr.filter isPlace).length

/-- Forgets the success flag of each cancel/create attempt, keeping which calls
were issued, on what, in what order. -/
def eraseOk : Event → Event
  | Event.cancelAttempt i _ => Event.cancelAttempt i true
  | Event.placeAttempt a pc sz _ => Event.placeAttempt a pc sz true
  | e => e

/-- Formalisation of the ordering property of claim C1 on a trace: every
cancel attempt comes strictly before every mid fetch and every placement. -/
def cancelsFirst (tr : List Event) : Prop :=
  ∀ i : Fin tr.length, ∀ j : Fin tr.length,
    isCancel tr[i] = true → (isFetch tr[j] = true ∨ isPlace tr[j] = true) → (i : ℕ) < (j : ℕ)

instance (tr : List Event) : Decidable (cancelsFirst tr) := by
  unfold cancelsFirst; infer_instance

/-- Strategy parameters of AvellanedaMarketMaker.__init__ that the quote
engine reads. -/
structure Params where
  base_gamma : ℝ
  k : ℝ
  sigma : ℝ
  T : ℝ
  max_position : ℤ
  min_spread : ℝ
  position_limit_buffer : ℝ
  inventory_skew_factor : ℝ

/-- AvellanedaMarketMaker.calculate_dynamic_gamma. -/
noncomputable def calculate_dynamic_gamma (p : Params) (inventory : ℤ) : ℝ :=
  p.base_gamma * Real.exp (-|(inventory : ℝ) / (p.max_position : ℝ)|)

/-- AvellanedaMarketMaker.calculate_reservation_price. -/
noncomputable def calculate_reservation_price (p : Params) (mid_price : ℝ) (inventory : ℤ)
    (t : ℝ) : ℝ :=
  mid_price + (inventory : ℝ) * p.inventory_skew_factor * mid_price -
    (inventory : ℝ) * calculate_dynamic_gamma p inventory * p.sigma ^ 2 * (1 - t / p.T)

/-- AvellanedaMarketMaker.calculate_optimal_spread. -/
noncomputable def calculate_optimal_spread (p : Params) (t : ℝ) (inventory : ℤ) : ℝ :=
  let dynamic_gamma := calculate_dynamic_gamma p inventory
  let base_spread := dynamic_gamma * p.sigma ^ 2 * (1 - t / p.T) +
    (2 / dynamic_gamma) * Real.log (1 + dynamic_gamma / p.k)
  let pos_frac := |(inventory : ℝ)| / (p.max_position : ℝ)
  let spread_adjustment := 1 - pos_frac ^ 2
  max (base_spread * spread_adjustment * 0.01) p.min_spread

/-- AvellanedaMarketMaker.calculate_asymmetric_quotes. -/
noncomputable def calculate_asymmetric_quotes (p : Params) (mid_price : ℝ) (inventory : ℤ)
    (t : ℝ) : ℝ × ℝ :=
  let reservation_price := calculate_reservation_price p mid_price inventory t
  let base_spread := calculate_optimal_spread p t inventory
  let pos_frac := (inventory : ℝ) / (p.max_position : ℝ)
  let spread_adjustment := base_spread * |pos_frac| * 3
  let bid_spread := if inventory > 0 then base_spread / 2 + spread_adjustment
    else max (base_spread / 2 - spread_adjustment) (p.min_spread / 2)
  let ask_spread := if inventory > 0 then
      max (base_spread / 2 - spread_adjustment) (p.min_spread / 2)
    else base_spread / 2 + spread_adjustment
  let bid_price := max 0 (min mid_price (reservation_price - bid_spread))
  let ask_price := min 1 (max mid_price (reservation_price + ask_spread))
  (bid_price, ask_price)

/-- AvellanedaMarketMaker.calculate_order_sizes. -/
noncomputable def calculate_order_sizes (p : Params) (inventory : ℤ) : ℤ × ℤ :=
  let remaining_capacity := p.max_position - |inventory|
  let buffer_size := pyInt ((p.max_position : ℝ) * p.position_limit_buffer)
  if inventory > 0 then
    (max 1 (min buffer_size remaining_capacity), max 1 p.max_position)
  else
    (max 1 p.max_position, max 1 (min buffer_size remaining_capacity))

lemma scanOrders_some (ts : Side) (gw : Gateway) (dp : ℚ) (ds : ℤ) (o₀ : Order) :
    ∀ orders : List Order,
      scanOrders ts gw dp ds orders (some o₀) = (some o₀, orders.map (cancelEv gw))
  | [] => rfl
  | o :: rest => by
    simp [scanOrders, scanOrders_some ts gw dp ds o₀ rest]

lemma scanOrders_none (ts : Side) (gw : Gateway) (dp : ℚ) (ds : ℤ) :
    ∀ orders : List Order,
      scanOrders ts gw dp ds orders none =
        (orders.find? (matchesDesired ts dp ds),
         (orders.eraseP (matchesDesired ts dp ds)).map (cancelEv gw))
  | [] => rfl
  | o :: rest => by
    by_cases h : matchesDesired ts dp ds o = true
    · simp [scanOrders, h, List.find?_cons, List.eraseP_cons, scanOrders_some ts gw dp ds o rest]
    · simp [scanOrders, h, List.find?_cons, List.eraseP_cons, scanOrders_none ts gw dp ds rest]

lemma handle_keep (ts : Side) (gw : Gateway) (action : Act) (orders : List Order)
    (dp : ℚ) (ds : ℤ) :
    (handle_order_side ts gw action orders dp ds).1 = orders.find? (matchesDesired ts dp ds) := by
  unfold handle_order_side
  rw [scanOrders_none]
  cases h : orders.find? (matchesDesired ts dp ds) with
  | none =>
    simp only [h]
    split <;> rfl
  | some o => simp [h]

lemma handle_trace_kept (ts : Side) (gw : Gateway) (action : Act) (orders : List Order)
    (dp : ℚ) (ds : ℤ) (o : Order) (h : orders.find? (matchesDesired ts dp ds) = some o) :
    (handle_order_side ts gw action orders dp ds).2 =
      (orders.eraseP (matchesDesired ts dp ds)).map (cancelEv gw) ++
        [Event.fetchMid gw.refetchMid] := by
  unfold handle_order_side
  rw [scanOrders_none, h]

lemma handle_trace_place (ts : Side) (gw : Gateway) (action : Act) (orders : List Order)
    (dp : ℚ) (ds : ℤ) (h : orders.find? (matchesDesired ts dp ds) = none)
    (hc : (action = Act.buy ∧ dp < gw.refetchMid) ∨ (action = Act.sell ∧ dp > gw.refetchMid)) :
    (handle_order_side ts gw action orders dp ds).2 =
      (orders.eraseP (matchesDesired ts dp ds)).map (cancelEv gw) ++
        [Event.fetchMid gw.refetchMid,
         Event.placeAttempt action (pyInt (dp * 100)) ds gw.createOk] := by
  unfold handle_order_side
  rw [scanOrders_none, h]
  simp [hc]

lemma handle_trace_skip (ts : Side) (gw : Gateway) (action : Act) (orders : List Order)
    (dp : ℚ) (ds : ℤ) (h : orders.find? (matchesDesired ts dp ds) = none)
    (hc : ¬ ((action = Act.buy ∧ dp < gw.refetchMid) ∨
      (action = Act.sell ∧ dp > gw.refetchMid))) :
    (handle_order_side ts gw action orders dp ds).2 =
      (orders.eraseP (matchesDesired ts dp ds)).map (cancelEv gw) ++
        [Event.fetchMid gw.refetchMid, Event.logSkip action] := by
  unfold handle_order_side
  rw [scanOrders_none, h]
  simp [hc]

lemma filter_cancel_map (gw : Gateway) (l : List Order) :
    (l.map (cancelEv gw)).filter isCancel = l.map (cancelEv gw) := by
  induction l with
  | nil => rfl
  | cons o rest ih => simp [cancelEv, isCancel, ih]

lemma filter_fetch_map (gw : Gateway) (l : List Order) :
    (l.map (cancelEv gw)).filter isFetch = [] := by
  induction l with
  | nil => rfl
  | cons o rest ih => simp [cancelEv, isFetch, ih]

lemma filter_place_map (gw : Gateway) (l : List Order) :
    (l.map (cancelEv gw)).filter isPlace = [] := by
  induction l with
  | nil => rfl
  | cons o rest ih => simp [cancelEv, isPlace, ih]

lemma length_eraseP_le (p : Order → Bool) : ∀ l : List Order, (l.eraseP p).length ≤ l.length
  | [] => le_refl 0
  | o :: rest => by
    by_cases h : p o = true
    · simp [List.eraseP_cons, h]
    · simp [List.eraseP_cons, h]
      exact length_eraseP_le p rest

lemma fetchCount_handle (ts : Side) (gw : Gateway) (action : Act) (orders : List Order)
    (dp : ℚ) (ds : ℤ) :
    fetchCount (handle_order_side ts gw action orders dp ds).2 = 1 := by
  rcases h : orders.find? (matchesDesired ts dp ds) with _ | o
  · by_cases hc : (action = Act.buy ∧ dp < gw.refetchMid) ∨
        (action = Act.sell ∧ dp > gw.refetchMid)
    · rw [handle_trace_place ts gw action orders dp ds h hc]
      simp [fetchCount, List.filter_append, filter_fetch_map, isFetch]
    · rw [handle_trace_skip ts gw action orders dp ds h hc]
      simp [fetchCount, List.filter_append, filter_fetch_map, isFetch]
  · rw [handle_trace_kept ts gw action orders dp ds o h]
    simp [fetchCount, List.filter_append, filter_fetch_map, isFetch]

lemma cancelCount_handle (ts : Side) (gw : Gateway) (action : Act) (orders : List Order)
    (dp : ℚ) (ds : ℤ) :
    cancelCount (handle_order_side ts gw action orders dp ds).2 =
      (orders.eraseP (matchesDesired ts dp ds)).length := by
  rcases h : orders.find? (matchesDesired ts dp ds) with _ | o
  · by_cases hc : (action = Act.buy ∧ dp < gw.refetchMid) ∨
        (action = Act.sell ∧ dp > gw.refetchMid)
    · rw [handle_trace_place ts gw action orders dp ds h hc]
      simp [cancelCount, List.filter_append, filter_cancel_map, isCancel]
    · rw [handle_trace_skip ts gw action orders dp ds h hc]
      simp [cancelCount, List.filter_append, filter_cancel_map, isCancel]
  · rw [handle_trace_kept ts gw action orders dp ds o h]
    simp [cancelCount, List.filter_append, filter_cancel_map, isCancel]

lemma placeCount_handle_le (ts : Side) (gw : Gateway) (action : Act) (orders : List Order)
    (dp : ℚ) (ds : ℤ) :
    placeCount (handle_order_side ts gw action orders dp ds).2 ≤ 1 := by
  rcases h : orders.find? (matchesDesired ts dp ds) with _ | o
  · by_cases hc : (action = Act.buy ∧ dp < gw.refetchMid) ∨
        (action = Act.sell ∧ dp > gw.refetchMid)
    · rw [handle_trace_place ts gw action orders dp ds h hc]
      simp [placeCount, List.filter_append, filter_place_map, isPlace]
    · rw [handle_trace_skip ts gw action orders dp ds h hc]
      simp [placeCount, List.filter_append, filter_place_map, isPlace]
  · rw [handle_trace_kept ts gw action orders dp ds o h]
    simp [placeCount, List.filter_append, filter_place_map, isPlace]

/-- Default strategy parameters of runner.py (gamma 0.1, k 1.5, sigma 0.5,
T 3600, max_position 100, min_spread 0.01, position_limit_buffer 0.1,
inventory_skew_factor 0.01), used as concrete instantiation points. -/
def defaultParams : Params where
  base_gamma := 0.1
  k := 1.5
  sigma := 0.5
  T := 3600
  max_position := 100
  min_spread := 0.01
  position_limit_buffer := 0.1
  inventory_skew_factor := 0.01

/-- Claim C4: for every mid price in [0, 1], every inventory, and every elapsed
time t, the quote pair returned by calculate_asymmetric_quotes satisfies
0 ≤ bid_price ≤ mid ≤ ask_price ≤ 1: the bid never exceeds the current mid and
the ask never falls below it. -/
theorem c4_quotes_bracket_mid (p : Params) (mid_price : ℝ) (inventory : ℤ) (t : ℝ)
    (h0 : 0 ≤ mid_price) (h1 : mid_price ≤ 1) :
    0 ≤ (calculate_asymmetric_quotes p mid_price inventory t).1 ∧
    (calculate_asymmetric_quotes p mid_price inventory t).1 ≤ mid_price ∧
    mid_price ≤ (calculate_asymmetric_quotes p mid_price inventory t).2 ∧
    (calculate_asymmetric_quotes p mid_price inventory t).2 ≤ 1 := by
  simp only [calculate_asymmetric_quotes]
  exact ⟨le_max_left _ _, max_le h0 (min_le_left _ _),
    le_min h1 (le_max_left _ _), min_le_left _ _⟩

/-- Witness for C4 at mid = 1/2, inventory 0, t = 0 and the default
parameters. -/
theorem c4_witness :
    (0 : ℝ) ≤ 1/2 ∧ (1 : ℝ)/2 ≤ 1 ∧
    (0 ≤ (calculate_asymmetric_quotes defaultParams (1/2) 0 0).1 ∧
     (calculate_asymmetric_quotes defaultParams (1/2) 0 0).1 ≤ 1/2 ∧
     1/2 ≤ (calculate_asymmetric_quotes defaultParams (1/2) 0 0).2 ∧
     (calculate_asymmetric_quotes defaultParams (1/2) 0 0).2 ≤ 1) :=
  ⟨by norm_num, by norm_num,
   c4_quotes_bracket_mid defaultParams (1/2) 0 0 (by norm_num) (by norm_num)⟩

/-- Claim C5: for every inventory (with gamma > 0 and max_position > 0), the
dynamic risk aversion equals gamma * exp(-|inventory / max_position|), lies in
(0, gamma], and is monotonically decreasing in |inventory|. -/
theorem c5_dynamic_gamma_bounds_mono (p : Params) (inventory : ℤ)
    (hg : 0 < p.base_gamma) (hM : 0 < p.max_position) :
    calculate_dynamic_gamma p inventory =
      p.base_gamma * Real.exp (-|(inventory : ℝ) / (p.max_position : ℝ)|) ∧
    0 < calculate_dynamic_gamma p inventory ∧
    calculate_dynamic_gamma p inventory ≤ p.base_gamma ∧
    ∀ i j : ℤ, |i| ≤ |j| → calculate_dynamic_gamma p j ≤ calculate_dynamic_gamma p i := by
  have hMR : (0 : ℝ) < (p.max_position : ℝ) := by exact_mod_cast hM
  refine ⟨rfl, mul_pos hg (Real.exp_pos _), ?_, ?_⟩
  · have h1 : Real.exp (-|(inventory : ℝ) / (p.max_position : ℝ)|) ≤ 1 := by
      rw [← Real.exp_zero]
      exact Real.exp_le_exp.mpr (neg_nonpos.mpr (abs_nonneg _))
    calc p.base_gamma * Real.exp (-|(inventory : ℝ) / (p.max_position : ℝ)|)
        ≤ p.base_gamma * 1 := mul_le_mul_of_nonneg_left h1 hg.le
      _ = p.base_gamma := mul_one _
  · intro i j hij
    unfold calculate_dynamic_gamma
    apply mul_le_mul_of_nonneg_left _ hg.le
    apply Real.exp_le_exp.mpr
    apply neg_le_neg
    rw [abs_div, abs_div, abs_of_pos hMR]
    have hcast : |(i : ℝ)| ≤ |(j : ℝ)| := by
      rw [← Int.cast_abs, ← Int.cast_abs]
      exact_mod_cast hij
    exact (div_le_div_right hMR).mpr hcast

/-- Witness for C5 at inventory 3 and the default parameters. -/
theorem c5_witness :
    0 < defaultParams.base_gamma ∧ (0 : ℤ) < defaultParams.max_position ∧
    (calculate_dynamic_gamma defaultParams 3 =
       defaultParams.base_gamma *
         Real.exp (-|((3 : ℤ) : ℝ) / (defaultParams.max_position : ℝ)|) ∧
     0 < calculate_dynamic_gamma defaultParams 3 ∧
     calculate_dynamic_gamma defaultParams 3 ≤ defaultParams.base_gamma ∧
     ∀ i j : ℤ, |i| ≤ |j| →
       calculate_dynamic_gamma defaultParams j ≤ calculate_dynamic_gamma defaultParams i) :=
  ⟨by norm_num [defaultParams], by norm_num [defaultParams],
   c5_dynamic_gamma_bounds_mono defaultParams 3 (by norm_num [defaultParams])
     (by norm_num [defaultParams])⟩

/-- Claim C7: for every inventory with |inventory| ≤ max_position, with
position_limit_buffer in (0, 1] and max_position > 0, calculate_order_sizes
returns a buy size and a sell size both between 1 and max_position. -/
theorem c7_order_sizes_bounds (p : Params) (inventory : ℤ)
    (hM : 0 < p.max_position) (hb0 : 0 < p.position_limit_buffer)
    (hb1 : p.position_limit_buffer ≤ 1) (hinv : |inventory| ≤ p.max_position) :
    1 ≤ (calculate_order_sizes p inventory).1 ∧
    (calculate_order_sizes p inventory).1 ≤ p.max_position ∧
    1 ≤ (calculate_order_sizes p inventory).2 ∧
    (calculate_order_sizes p inventory).2 ≤ p.max_position := by
  have h1M : (1 : ℤ) ≤ p.max_position := hM
  have hrem : p.max_position - |inventory| ≤ p.max_position :=
    sub_le_self _ (abs_nonneg _)
  have hcap : ∀ b : ℤ, max 1 (min b (p.max_position - |inventory|)) ≤ p.max_position :=
    fun b => max_le h1M (le_trans (min_le_right _ _) hrem)
  simp only [calculate_order_sizes]
  by_cases hpos : inventory > 0
  · simp only [if_pos hpos]
    exact ⟨le_max_left _ _, hcap _, le_max_left _ _, max_le h1M le_rfl⟩
  · simp only [if_neg hpos]
    exact ⟨le_max_left _ _, max_le h1M le_rfl, le_max_left _ _, hcap _⟩

/-- Witness for C7 at inventory 80 and the default parameters. -/
theorem c7_witness :
    (0 : ℤ) < defaultParams.max_position ∧ 0 < defaultParams.position_limit_buffer ∧
    defaultParams.position_limit_buffer ≤ 1 ∧ |(80 : ℤ)| ≤ defaultParams.max_position ∧
    (1 ≤ (calculate_order_sizes defaultParams 80).1 ∧
     (calculate_order_sizes defaultParams 80).1 ≤ defaultParams.max_position ∧
     1 ≤ (calculate_order_sizes defaultParams 80).2 ∧
     (calculate_order_sizes defaultParams 80).2 ≤ defaultParams.max_position) :=
  ⟨by norm_num [defaultParams], by norm_num [defaultParams], by norm_num [defaultParams],
   by norm_num [defaultParams],
   c7_order_sizes_bounds defaultParams 80 (by norm_num [defaultParams])
     (by norm_num [defaultParams]) (by norm_num [defaultParams])
     (by norm_num [defaultParams])⟩

/-- Claim C8: for every elapsed time t and every inventory, under the
parameter preconditions gamma > 0, k > 0, max_position > 0, the value of
calculate_optimal_spread is at least min_spread. -/
theorem c8_spread_floor (p : Params) (t : ℝ) (inventory : ℤ)
    (hg : 0 < p.base_gamma) (hk : 0 < p.k) (hM : 0 < p.max_position) :
    p.min_spread ≤ calculate_optimal_spread p t inventory := by
  simp only [calculate_optimal_spread]
  exact le_max_right _ _

/-- Witness for C8 at t = 0, inventory 0 and the default parameters. -/
theorem c8_witness :
    0 < defaultParams.base_gamma ∧ 0 < defaultParams.k ∧
    (0 : ℤ) < defaultParams.max_position ∧
    defaultParams.min_spread ≤ calculate_optimal_spread defaultParams 0 0 :=
  ⟨by norm_num [defaultParams], by norm_num [defaultParams], by norm_num [defaultParams],
   c8_spread_floor defaultParams 0 0 (by norm_num [defaultParams])
     (by norm_num [defaultParams]) (by norm_num [defaultParams])⟩

/-- Claim C9: at inventory exactly 0, calculate_order_sizes takes the
non-positive-inventory branch: the buy size is max(1, max_position), the full
flattening size, and the sell size is max(1, min(floor(max_position *
position_limit_buffer), max_position)), the buffered cap — the same shape as
for a short position, not symmetric. -/
theorem c9_zero_inventory_sizes (p : Params) (hM : 0 < p.max_position)
    (hb : 0 ≤ p.position_limit_buffer) :
    calculate_order_sizes p 0 =
      (max 1 p.max_position,
       max 1 (min ⌊(p.max_position : ℝ) * p.position_limit_buffer⌋ p.max_position)) := by
  have hprod : (0 : ℝ) ≤ (p.max_position : ℝ) * p.position_limit_buffer :=
    mul_nonneg (by exact_mod_cast hM.le) hb
  simp [calculate_order_sizes, pyInt, hprod]

/-- Witness for C9 at the default parameters. -/
theorem c9_witness :
    (0 : ℤ) < defaultParams.max_position ∧ 0 ≤ defaultParams.position_limit_buffer ∧
    calculate_order_sizes defaultParams 0 =
      (max 1 defaultParams.max_position,
       max 1 (min ⌊(defaultParams.max_position : ℝ) * defaultParams.position_limit_buffer⌋
         defaultParams.max_position)) :=
  ⟨by norm_num [defaultParams], by norm_num [defaultParams],
   c9_zero_inventory_sizes defaultParams (by norm_num [defaultParams])
     (by norm_num [defaultParams])⟩

/-- Concrete gateway in which every call succeeds and the re-fetched mid is
0.50. -/
def gw0 : Gateway where
  cancelOk := fun _ => true
  createOk := true
  refetchMid := 1/2

/-- Concrete gateway in which every cancel and create call raises and the
re-fetched mid is 0.50. -/
def gw1 : Gateway where
  cancelOk := fun _ => false
  createOk := false
  refetchMid := 1/2

/-- Resting buy order of Scenario C: yes side, price 48 cents, remaining size
10. -/
def keptOrder : Order where
  order_id := 1
  side := Side.yes
  action := Act.buy
  yes_price := 48
  no_price := 52
  remaining_count := 10

/-- Claim C2: the reconciler designates at most one keep per side — the first
order whose price is within 0.01 of the desired price and whose remaining size
equals the desired size — and issues exactly one cancel for every other order,
in order; and in Scenario C (resting buy at 0.48 size 10 against desired
0.481 size 10) the order matches, nothing is cancelled and nothing is
placed. -/
theorem c2_keep_first_cancel_rest :
    (∀ (ts : Side) (gw : Gateway) (action : Act) (orders : List Order) (dp : ℚ) (ds : ℤ),
      (handle_order_side ts gw action orders dp ds).1 =
        orders.find? (matchesDesired ts dp ds) ∧
      (handle_order_side ts gw action orders dp ds).2.filter isCancel =
        (orders.eraseP (matchesDesired ts dp ds)).map (cancelEv gw)) ∧
    (matchesDesired Side.yes (481/1000) 10 keptOrder = true ∧
     cancelCount (handle_order_side Side.yes gw0 Act.buy [keptOrder] (481/1000) 10).2 = 0 ∧
     placeCount (handle_order_side Side.yes gw0 Act.buy [keptOrder] (481/1000) 10).2 = 0) := by
  constructor
  · intro ts gw action orders dp ds
    refine ⟨handle_keep ts gw action orders dp ds, ?_⟩
    rcases h : orders.find? (matchesDesired ts dp ds) with _ | o
    · by_cases hc : (action = Act.buy ∧ dp < gw.refetchMid) ∨
          (action = Act.sell ∧ dp > gw.refetchMid)
      · rw [handle_trace_place ts gw action orders dp ds h hc]
        simp [List.filter_append, filter_cancel_map, isCancel]
      · rw [handle_trace_skip ts gw action orders dp ds h hc]
        simp [List.filter_append, filter_cancel_map, isCancel]
    · rw [handle_trace_kept ts gw action orders dp ds o h]
      simp [List.filter_append, filter_cancel_map, isCancel]
  · have hm : matchesDesired Side.yes (481/1000) 10 keptOrder = true := by
      simp only [matchesDesired, orderPrice, keptOrder, Bool.and_eq_true, decide_eq_true_eq]
      constructor
      · rw [show ((48 : ℤ) : ℚ)/100 - 481/1000 = -(1/1000) by norm_num, abs_neg,
          abs_of_nonneg (by norm_num : (0:ℚ) ≤ 1/1000)]
        norm_num
      · trivial
    have hfind : List.find? (matchesDesired Side.yes (481/1000) 10) [keptOrder] =
        some keptOrder := by
      simp [List.find?, hm]
    have herase : List.eraseP (matchesDesired Side.yes (481/1000) 10) [keptOrder] = [] := by
      simp [List.eraseP_cons, hm]
    have htr := handle_trace_kept Side.yes gw0 Act.buy [keptOrder] (481/1000) 10 keptOrder hfind
    rw [herase] at htr
    refine ⟨hm, ?_, ?_⟩
    · simp only [cancelCount, htr]
      rfl
    · simp only [placeCount, htr]
      rfl

/-- Claim C3: when no order was kept on a side, a placement attempt happens if
and only if the desired price strictly beats the freshly re-fetched mid on the
proper side, and when the check fails nothing is placed and the outcome is a
logged skip. -/
theorem c3_place_iff_beats_fresh_mid (ts : Side) (gw : Gateway) (action : Act)
    (orders : List Order) (dp : ℚ) (ds : ℤ)
    (hkeep : (handle_order_side ts gw action orders dp ds).1 = none) :
    (0 < placeCount (handle_order_side ts gw action orders dp ds).2 ↔
      ((action = Act.buy ∧ dp < gw.refetchMid) ∨
       (action = Act.sell ∧ dp > gw.refetchMid))) ∧
    (¬ ((action = Act.buy ∧ dp < gw.refetchMid) ∨
        (action = Act.sell ∧ dp > gw.refetchMid)) →
      placeCount (handle_order_side ts gw action orders dp ds).2 = 0 ∧
      Event.logSkip action ∈ (handle_order_side ts gw action orders dp ds).2) := by
  rw [handle_keep ts gw action orders dp ds] at hkeep
  by_cases hc : (action = Act.buy ∧ dp < gw.refetchMid) ∨
      (action = Act.sell ∧ dp > gw.refetchMid)
  · rw [handle_trace_place ts gw action orders dp ds hkeep hc]
    constructor
    · simp [placeCount, List.filter_append, filter_place_map, isPlace, hc]
    · intro hnc
      exact absurd hc hnc
  · rw [handle_trace_skip ts gw action orders dp ds hkeep hc]
    constructor
    · simp [placeCount, List.filter_append, filter_place_map, isPlace, hc]
    · intro _
      constructor
      · simp [placeCount, List.filter_append, filter_place_map, isPlace]
      · simp

/-- Witness for C3 at the yes side, a buy with desired price 0.75 against a
re-fetched mid of 0.50 (the check fails, so the side skips). -/
theorem c3_witness :
    (handle_order_side Side.yes gw0 Act.buy [] (3/4) 10).1 = none ∧
    ((0 < placeCount (handle_order_side Side.yes gw0 Act.buy [] (3/4) 10).2 ↔
       ((Act.buy = Act.buy ∧ (3/4 : ℚ) < gw0.refetchMid) ∨
        (Act.buy = Act.sell ∧ (3/4 : ℚ) > gw0.refetchMid))) ∧
     (¬ ((Act.buy = Act.buy ∧ (3/4 : ℚ) < gw0.refetchMid) ∨
         (Act.buy = Act.sell ∧ (3/4 : ℚ) > gw0.refetchMid)) →
       placeCount (handle_order_side Side.yes gw0 Act.buy [] (3/4) 10).2 = 0 ∧
       Event.logSkip Act.buy ∈ (handle_order_side Side.yes gw0 Act.buy [] (3/4) 10).2)) := by
  have hk : (handle_order_side Side.yes gw0 Act.buy [] (3/4) 10).1 = none := by
    rw [handle_keep Side.yes gw0 Act.buy [] (3/4) 10]
    rfl
  exact ⟨hk, c3_place_iff_beats_fresh_mid Side.yes gw0 Act.buy [] (3/4) 10 hk⟩

lemma map_eraseOk_cancel (gw : Gateway) (l : List Order) :
    (l.map (cancelEv gw)).map eraseOk =
      l.map (fun o => Event.cancelAttempt o.order_id true) := by
  induction l with
  | nil => rfl
  | cons o rest ih => simp [cancelEv, eraseOk, ih]

/-- Claim C6: a failing cancel_order or create_order call is absorbed locally:
for any two gateways that agree on the re-fetched mid (but may fail any subset
of calls), the keep decision and the erased call trace (which calls are issued,
on what, in which order) coincide, every order triggers at most one cancel
attempt, and at most one placement attempt is made — so failures change no
control flow, nothing is retried, and the cycle always runs to completion. -/
theorem c6_per_order_failure_isolated (ts : Side) (action : Act) (orders : List Order)
    (dp : ℚ) (ds : ℤ) (gw gw' : Gateway) (hmid : gw.refetchMid = gw'.refetchMid) :
    (handle_order_side ts gw action orders dp ds).1 =
      (handle_order_side ts gw' action orders dp ds).1 ∧
    (handle_order_side ts gw action orders dp ds).2.map eraseOk =
      (handle_order_side ts gw' action orders dp ds).2.map eraseOk ∧
    cancelCount (handle_order_side ts gw action orders dp ds).2 ≤ orders.length ∧
    placeCount (handle_order_side ts gw action orders dp ds).2 ≤ 1 := by
  refine ⟨?_, ?_, ?_, placeCount_handle_le ts gw action orders dp ds⟩
  · rw [handle_keep, handle_keep]
  · rcases h : orders.find? (matchesDesired ts dp ds) with _ | o
    · by_cases hc : (action = Act.buy ∧ dp < gw.refetchMid) ∨
          (action = Act.sell ∧ dp > gw.refetchMid)
      · have hc' : (action = Act.buy ∧ dp < gw'.refetchMid) ∨
            (action = Act.sell ∧ dp > gw'.refetchMid) := by rwa [hmid] at hc
        rw [handle_trace_place ts gw action orders dp ds h hc,
          handle_trace_place ts gw' action orders dp ds h hc']
        rw [List.map_append, List.map_append, map_eraseOk_cancel, map_eraseOk_cancel]
        simp [eraseOk, hmid]
      · have hc' : ¬ ((action = Act.buy ∧ dp < gw'.refetchMid) ∨
            (action = Act.sell ∧ dp > gw'.refetchMid)) := by rwa [hmid] at hc
        rw [handle_trace_skip ts gw action orders dp ds h hc,
          handle_trace_skip ts gw' action orders dp ds h hc']
        rw [List.map_append, List.map_append, map_eraseOk_cancel, map_eraseOk_cancel]
        simp [eraseOk, hmid]
    · rw [handle_trace_kept ts gw action orders dp ds o h,
        handle_trace_kept ts gw' action orders dp ds o h]
      rw [List.map_append, List.map_append, map_eraseOk_cancel, map_eraseOk_cancel]
      simp [eraseOk, hmid]
  · rw [cancelCount_handle ts gw action orders dp ds]
    exact length_eraseP_le _ orders

/-- Witness for C6: the all-success gateway against the all-failure gateway,
both re-fetching a mid of 0.50, on a single extraneous sell order. -/
theorem c6_witness :
    gw0.refetchMid = gw1.refetchMid ∧
    ((handle_order_side Side.yes gw0 Act.sell [keptOrder] (7/10) 5).1 =
       (handle_order_side Side.yes gw1 Act.sell [keptOrder] (7/10) 5).1 ∧
     (handle_order_side Side.yes gw0 Act.sell [keptOrder] (7/10) 5).2.map eraseOk =
       (handle_order_side Side.yes gw1 Act.sell [keptOrder] (7/10) 5).2.map eraseOk ∧
     cancelCount (handle_order_side Side.yes gw0 Act.sell [keptOrder] (7/10) 5).2 ≤
       [keptOrder].length ∧
     placeCount (handle_order_side Side.yes gw0 Act.sell [keptOrder] (7/10) 5).2 ≤ 1) :=
  ⟨rfl, c6_per_order_failure_isolated Side.yes Act.sell [keptOrder] (7/10) 5 gw0 gw1 rfl⟩

lemma fetchCount_append (a b : List Event) :
    fetchCount (a ++ b) = fetchCount a + fetchCount b := by
  simp [fetchCount, List.filter_append]

/-- Claim C10: every handle_order_side invocation performs exactly one mid
fetch, even when an order is kept and nothing is cancelled or placed; hence a
full manage_orders cycle performs exactly two mid re-fetches (the initial
market snapshot of the run loop happens before manage_orders and is separate).
-/
theorem c10_fetch_counts :
    (∀ (ts : Side) (gw : Gateway) (action : Act) (orders : List Order) (dp : ℚ) (ds : ℤ),
      fetchCount (handle_order_side ts gw action orders dp ds).2 = 1) ∧
    (∀ (ts : Side) (gwBuy gwSell : Gateway) (current_orders : List Order)
      (bid_price ask_price : ℚ) (buy_size sell_size : ℤ),
      fetchCount (manage_orders ts gwBuy gwSell current_orders bid_price ask_price
        buy_size sell_size) = 2) := by
  refine ⟨fetchCount_handle, ?_⟩
  intro ts gwBuy gwSell current_orders bid_price ask_price buy_size sell_size
  simp only [manage_orders]
  rw [fetchCount_append, fetchCount_handle, fetchCount_handle]

lemma cancelsFirst_append (lc lr : List Event)
    (h₁ : ∀ e ∈ lc, isFetch e = false ∧ isPlace e = false)
    (h₂ : ∀ e ∈ lr, isCancel e = false) :
    cancelsFirst (lc ++ lr) := by
  intro i j hci hfj
  simp only [Fin.getElem_fin] at hci hfj
  have hi : (i : ℕ) < lc.length := by
    by_contra hni
    push_neg at hni
    rw [List.getElem_append_right hni] at hci
    exact absurd hci (by simp [h₂ _ (List.getElem_mem _)])
  have hj : lc.length ≤ (j : ℕ) := by
    by_contra hnj
    push_neg at hnj
    rw [List.getElem_append_left hnj] at hfj
    rcases h₁ _ (List.getElem_mem _) with ⟨hf, hp⟩
    rcases hfj with hx | hx
    · rw [hf] at hx
      exact Bool.false_ne_true hx
    · rw [hp] at hx
      exact Bool.false_ne_true hx
  exact lt_of_lt_of_le hi hj

/-- Claim C1 (amended): within each single side's reconciliation — one
handle_order_side invocation — every cancel attempt for an extraneous order is
issued before that invocation's post-cancellation mid re-fetch and before any
order placement of that invocation.  (Across sides this fails: see the
counterexample, where the sell side's cancel comes after the buy side's
re-fetch.) -/
theorem c1_cancels_precede_fetch_and_place_per_side (ts : Side) (gw : Gateway)
    (action : Act) (orders : List Order) (dp : ℚ) (ds : ℤ) :
    cancelsFirst (handle_order_side ts gw action orders dp ds).2 := by
  have hcanc : ∀ e ∈ (orders.eraseP (matchesDesired ts dp ds)).map (cancelEv gw),
      isFetch e = false ∧ isPlace e = false := by
    intro e he
    rcases List.mem_map.mp he with ⟨o, -, rfl⟩
    exact ⟨rfl, rfl⟩
  rcases h : orders.find? (matchesDesired ts dp ds) with _ | o
  · by_cases hc : (action = Act.buy ∧ dp < gw.refetchMid) ∨
        (action = Act.sell ∧ dp > gw.refetchMid)
    · rw [handle_trace_place ts gw action orders dp ds h hc]
      refine cancelsFirst_append _ _ hcanc ?_
      intro e he
      simp only [List.mem_cons, List.not_mem_nil, or_false] at he
      rcases he with rfl | rfl <;> rfl
    · rw [handle_trace_skip ts gw action orders dp ds h hc]
      refine cancelsFirst_append _ _ hcanc ?_
      intro e he
      simp only [List.mem_cons, List.not_mem_nil, or_false] at he
      rcases he with rfl | rfl <;> rfl
  · rw [handle_trace_kept ts gw action orders dp ds o h]
    refine cancelsFirst_append _ _ hcanc ?_
    intro e he
    simp only [List.mem_cons, List.not_mem_nil, or_false] at he
    subst he
    rfl

/-- Extraneous resting sell order used in the C1 counterexample: yes side,
price 60 cents, remaining size 5. -/
def exOrder : Order where
  order_id := 7
  side := Side.yes
  action := Act.sell
  yes_price := 60
  no_price := 40
  remaining_count := 5

/-- Counterexample to claim C1 as stated: with no resting buy orders, a
desired bid of 0.40 against a re-fetched mid of 0.50, and one extraneous
resting sell order, the cycle's trace is buy-side re-fetch, buy-side
placement, and only then the sell side's cancel — so a cancel call of the
cycle is issued AFTER a post-cancellation mid re-fetch and AFTER a new order
placement of that same cycle. -/
theorem c1_counterexample :
    ¬ cancelsFirst (manage_orders Side.yes gw0 gw0 [exOrder] (2/5) (2/5) 10 10) := by
  have hm : matchesDesired Side.yes (2/5) 10 exOrder = false := by
    simp [matchesDesired, exOrder]
  have hpy : pyInt ((2/5 : ℚ) * 100) = 40 := by
    norm_num [pyInt]
  have hbuy : (handle_order_side Side.yes gw0 Act.buy [] (2/5) 10).2 =
      [Event.fetchMid (1/2), Event.placeAttempt Act.buy 40 10 true] := by
    rw [handle_trace_place Side.yes gw0 Act.buy [] (2/5) 10 rfl
      (Or.inl ⟨rfl, by norm_num [gw0]⟩)]
    rw [hpy]
    rfl
  have hfind : List.find? (matchesDesired Side.yes (2/5) 10) [exOrder] = none := by
    simp [List.find?, hm]
  have hsell : (handle_order_side Side.yes gw0 Act.sell [exOrder] (2/5) 10).2 =
      [Event.cancelAttempt 7 true, Event.fetchMid (1/2), Event.logSkip Act.sell] := by
    rw [handle_trace_skip Side.yes gw0 Act.sell [exOrder] (2/5) 10 hfind ?_]
    · rw [show List.eraseP (matchesDesired Side.yes (2/5) 10) [exOrder] = [exOrder] by
        simp [List.eraseP_cons, hm]]
      rfl
    · rintro (⟨hx, -⟩ | ⟨-, hx⟩)
      · exact Act.noConfusion hx
      · norm_num [gw0] at hx
  have htr : manage_orders Side.yes gw0 gw0 [exOrder] (2/5) (2/5) 10 10 =
      [Event.fetchMid (1/2), Event.placeAttempt Act.buy 40 10 true,
       Event.cancelAttempt 7 true, Event.fetchMid (1/2), Event.logSkip Act.sell] := by
    simp only [manage_orders]
    rw [show List.filter (fun o => decide (o.side = Side.yes) && decide (o.action = Act.buy))
        [exOrder] = [] from rfl]
    rw [show List.filter (fun o => decide (o.side = Side.yes) && decide (o.action = Act.sell))
        [exOrder] = [exOrder] from rfl]
    rw [hbuy, hsell]
    rfl
  rw [htr]
  intro hcf
  have := hcf ⟨2, by norm_num⟩ ⟨1, by norm_num⟩ rfl (Or.inr rfl)
  simp at this
